import Mathlib

/-!
Shallow embedding of the `react-keybind` shortcut engine (`src/index.tsx`)
and verification of its specification.

Callbacks are opaque to the engine, so they are represented by natural
numbers; invoking a callback is modelled by emitting its number into an
output list, in invocation order.  JavaScript objects used as string-keyed
maps are modelled by association lists with JavaScript assignment
semantics (overwrite in place, append when absent).
-/

namespace ReactKeybind

/-- Association-list lookup, mirroring JavaScript `obj[k]` on a string-keyed
object (first — and only — entry with the key). -/
def mapLookup {α : Type} (m : List (String × α)) (k : String) : Option α :=
  match m with
  | [] => none
  | (k', v) :: rest => if k' == k then some v else mapLookup rest k

/-- Association-list assignment, mirroring JavaScript `obj[k] = v`
(overwrite in place when present, append when absent). -/
def mapInsert {α : Type} (m : List (String × α)) (k : String) (v : α) :
    List (String × α) :=
  match m with
  | [] => [(k, v)]
  | (k', v') :: rest =>
    if k' == k then (k', v) :: rest else (k', v') :: mapInsert rest k v

/-- Association-list deletion, mirroring JavaScript `delete obj[k]`: a
JavaScript object holds at most one entry per key, so deletion removes
every entry carrying the key. -/
def mapErase {α : Type} (m : List (String × α)) (k : String) :
    List (String × α) :=
  m.filter (fun p => p.1 != k)

/-- ASCII lowercasing (JavaScript `toLowerCase` restricted to ASCII,
which covers every key name the engine treats specially).  Structurally
recursive so that concrete engine runs reduce inside the kernel. -/
def strLower (s : String) : String :=
  String.mk (s.data.map Char.toLower)

/-- Structural splitting of a character list at a separator character. -/
def splitChar (sep : Char) : List Char → List (List Char)
  | [] => [[]]
  | c :: rest =>
    match splitChar sep rest with
    | [] => [[c]]
    | h :: t => if c == sep then [] :: h :: t else (c :: h) :: t

/-- JavaScript `s.split(sep)` for a one-character separator (also the
behaviour of `String.splitOn`): the empty string yields `[""]` and
adjacent separators yield empty tokens. -/
def splitOnChar (sep : Char) (s : String) : List String :=
  (splitChar sep s.data).map String.mk

/-- Raw key specification passed by callers: the TypeScript signature says
`string[]` but the implementation coerces with a template literal because
"we might have a number". -/
inductive RawKey : Type
  | str (s : String)
  | num (n : Int)

/-- JavaScript template-literal coercion of a raw key to a string. -/
def RawKey.toStr : RawKey → String
  | .str s => s
  | .num n => toString n

/-- Per-token alias routing from `transformKeys`: lowercase the token, then
map `opt`/`option` to `alt`, `control` to `ctrl`, `cmd`/`command` to `meta`,
and pass every other token through unchanged. -/
def transformKey (key : String) : String :=
  let keyEvent := strLower key
  if keyEvent == "opt" || keyEvent == "option" then "alt"
  else if keyEvent == "control" then "ctrl"
  else if keyEvent == "cmd" || keyEvent == "command" then "meta"
  else keyEvent

/-- The engine's `transformKeys`: each entry is coerced to a string, split
on `+`, alias-routed per token, and rejoined with `+`. -/
def transformOne (rawKeys : RawKey) : String :=
  String.intercalate "+" ((splitOnChar '+' rawKeys.toStr).map transformKey)

/-- The engine's `transformKeys` mapped over a list of raw key
specifications. -/
def transformKeys (keys : List RawKey) : List String :=
  keys.map transformOne

/-- Specialisation of `transformKeys` to string input, as used by the
registration and unregistration entry points. -/
def transformKeysS (keys : List String) : List String :=
  transformKeys (keys.map RawKey.str)

/-- The alias table as the spec states it: `opt|option` to `alt`,
`control` to `ctrl`, `cmd|command` to `meta`. -/
def specAliases : List (String × String) :=
  [("opt", "alt"), ("option", "alt"), ("control", "ctrl"),
   ("cmd", "meta"), ("command", "meta")]

/-- Specification-side normalizer, transcribed from the spec's words for
comparison against `transformOne`: the input is split on `+`, each token
is lowercased, alias substitution applies per token with unknown tokens
passing through unchanged, and the tokens are rejoined with `+`
preserving relative order. -/
def normalizeSpec (raw : String) : String :=
  String.intercalate "+"
    ((splitOnChar '+' raw).map (fun tok =>
      match mapLookup specAliases (strLower tok) with
      | some canonical => canonical
      | none => strLower tok))

/-- A registered shortcut record (`IShortcut`).  The `id` field is an
opaque timestamp string in the source and carries no engine semantics, so
it is modelled as the empty string. -/
structure Shortcut where
  id : String
  description : String
  hold : Bool
  holdDuration : Nat
  keys : List String
  method : Nat
  sequence : Bool
  title : String
deriving Repr, DecidableEq

/-- Provider configuration (`IShortcutProviderProps`). -/
structure Config where
  ignoreKeys : List String := []
  ignoreTagNames : Option (List String) := none
  preventDefault : Bool := true
  sequenceTimeout : Option Nat := none
deriving Repr, DecidableEq

/-- A keyboard event as the engine consumes it: `e.key` (possibly
undefined), the four modifier flags, and the target element's tag name. -/
structure KeyEvent where
  key : Option String := none
  ctrlKey : Bool := false
  altKey : Bool := false
  metaKey : Bool := false
  shiftKey : Bool := false
  targetTagName : String := "DIV"
deriving Repr, DecidableEq

/-- The engine's mutable refs, gathered into one state record.
`holdInterval` models the active `setInterval`: it stores the
`(nextKeysDown, keyPress)` pair captured by the tick closure, or `none`
when no interval is scheduled.  `sequenceTimerSet` models whether the
`sequenceTimer` variable currently holds a timer id (the ids returned by
`window.setTimeout` are positive, hence truthy). -/
structure EngineState where
  holdDurations : List (String × Nat) := []
  holdInterval : Option (List String × String) := none
  holdListeners : List (String × Nat) := []
  holdTimer : Nat := 0
  keysDown : List String := []
  listeners : List (String × List Nat) := []
  previousKeys : List String := []
  sequenceListeners : List (String × Nat) := []
  sequenceTimerSet : Bool := false
  shortcuts : List Shortcut := []
  isEnabled : Bool := true
deriving Repr, DecidableEq

/-- The fresh engine state at mount. -/
def initialState : EngineState := {}

/-- Observable output of one dispatched event: combination callbacks
invoked (in order), sequence callback invoked, whether `preventDefault`
was called, and the duration of the sequence timeout scheduled by this
event, if any. -/
structure DispatchOut where
  comboFired : List Nat := []
  seqFired : List Nat := []
  preventedDefault : Bool := false
  seqTimeoutMs : Option Nat := none
deriving Repr, DecidableEq

/-- The empty dispatch output: nothing fired, nothing scheduled. -/
def noOut : DispatchOut := {}

/-- The engine's `resetTimer`: when an interval is active, clear it and
zero the accumulator; otherwise do nothing (in particular the accumulator
is NOT zeroed when no interval is active). -/
def resetTimer (s : EngineState) : EngineState :=
  if s.holdInterval.isSome then
    { s with holdInterval := none, holdTimer := 0 }
  else s

/-- The built-in tag-name ignore list merged with the collaborator's:
`ignoreTagNames` lowercased, followed by the default `input`. -/
def ignoreList (cfg : Config) : List String :=
  match cfg.ignoreTagNames with
  | some tags => tags.map strLower ++ ["input"]
  | none => ["input"]

/-- The modifier-detection block of `keyDown`: returns the
`(nextKeysDown, nextModKeys)` pair, with the main key already appended to
`nextKeysDown` when it is neither an ignored key nor a detected modifier
name. -/
def computeNextKeys (cfg : Config) (e : KeyEvent) (key : String)
    (keysDown : List String) : List String × List String :=
  let ik := cfg.ignoreKeys
  let p0 : List String × List String := ([], [])
  let p1 :=
    if (key == "control" || e.ctrlKey) && !(ik.contains "ctrl") then
      ((if keysDown.contains "ctrl" then p0.1 else p0.1 ++ ["ctrl"]),
       if key == "control" then p0.2 ++ [key] else p0.2)
    else p0
  let p2 :=
    if (key == "alt" || e.altKey) && !(ik.contains "alt") then
      ((if keysDown.contains "alt" then p1.1 else p1.1 ++ ["alt"]),
       if key == "alt" then p1.2 ++ [key] else p1.2)
    else p1
  let p3 :=
    if (key == "meta" || e.metaKey) && !(ik.contains "meta")
        && !(ik.contains "cmd") then
      ((if keysDown.contains "meta" then p2.1 else p2.1 ++ ["meta"]),
       if key == "meta" then p2.2 ++ [key] else p2.2)
    else p2
  let p4 :=
    if (key == "shift" || e.shiftKey) && !(ik.contains "shift") then
      ((if keysDown.contains "shift" then p3.1 else p3.1 ++ ["shift"]),
       if key == "shift" then p3.2 ++ [key] else p3.2)
    else p3
  (if (ik ++ p4.2).contains key then p4.1 else p4.1 ++ [key], p4.2)

/-- The body of `keyDown` after its guard has passed: merge new tokens
into `keysDown`, fire combination listeners on the joined key press,
restart the hold interval, and run the sequence block. -/
def keyDownCore (cfg : Config) (e : KeyEvent) (key : String)
    (s : EngineState) : EngineState × DispatchOut :=
  let nextKeysDown := (computeNextKeys cfg e key s.keysDown).1
  let keysDown' := s.keysDown ++ nextKeysDown
  let keyPress := String.intercalate "+" keysDown'
  let comboHit := mapLookup s.listeners keyPress
  let comboFired := comboHit.getD []
  let prevented := comboHit.isSome && cfg.preventDefault
  let s1 := { s with keysDown := keysDown' }
  let s2 := resetTimer s1
  let s3 := { s2 with holdInterval := some (nextKeysDown, keyPress) }
  let previousKeys' := s3.previousKeys ++ nextKeysDown
  let sequenceKeys := String.intercalate "," previousKeys'
  let seqHit := mapLookup s3.sequenceListeners sequenceKeys
  let s4 :=
    match seqHit with
    | some _ =>
      if s3.sequenceTimerSet then
        { s3 with previousKeys := [], sequenceTimerSet := false }
      else { s3 with previousKeys := previousKeys' }
    | none => { s3 with previousKeys := previousKeys' }
  let s5 := { s4 with sequenceTimerSet := true }
  (s5,
   { comboFired := comboFired
     seqFired := seqHit.toList
     preventedDefault := prevented
     seqTimeoutMs := some (cfg.sequenceTimeout.getD 2000) })

/-- The engine's `keyDown` handler.  The guard mirrors
`if (key && ignore.indexOf(tag) < 0 && keysDown.indexOf(key) < 0)`:
an undefined or empty key, an ignored target tag, or an already-held key
skips the whole body. -/
def keyDown (cfg : Config) (e : KeyEvent) (s : EngineState) :
    EngineState × DispatchOut :=
  if !s.isEnabled then (s, noOut)
  else
    match e.key with
    | none => (s, noOut)
    | some rawKey =>
      let key := strLower rawKey
      if key == "" then (s, noOut)
      else if (ignoreList cfg).contains (strLower e.targetTagName) then (s, noOut)
      else if s.keysDown.contains key then (s, noOut)
      else keyDownCore cfg e key s

/-- The token set removed by `keyUp`: one token per modifier whose flag is
set or whose name matches the lowercased key, plus the key itself when it
is not one of the four modifier names.  An undefined `e.key` pushes
`undefined` in the source, which matches no held string, so it is
omitted here. -/
def keysUpOf (e : KeyEvent) : List String :=
  let key := (e.key.map strLower).getD ""
  let l0 : List String := []
  let l1 := if key == "control" || e.ctrlKey then l0 ++ ["ctrl"] else l0
  let l2 := if key == "alt" || e.altKey then l1 ++ ["alt"] else l1
  let l3 := if key == "meta" || e.metaKey then l2 ++ ["meta"] else l2
  let l4 := if key == "shift" || e.shiftKey then l3 ++ ["shift"] else l3
  if (["control", "alt", "meta", "shift"].contains key) || e.key.isNone
  then l4 else l4 ++ [key]

/-- The engine's `keyUp` handler: filter the released tokens out of
`keysDown` and call `resetTimer`.  It does not consult `isEnabled`. -/
def keyUp (e : KeyEvent) (s : EngineState) : EngineState :=
  let keysUp := keysUpOf e
  resetTimer { s with keysDown := s.keysDown.filter (fun k => !keysUp.contains k) }

/-- The engine's `windowBlur` handler: clear `keysDown` and reset the hold
timer.  It does not consult `isEnabled`. -/
def windowBlur (s : EngineState) : EngineState :=
  resetTimer { s with keysDown := [] }

/-- One iteration of the 100ms hold-interval callback over the captured
`nextKeysDown` list: per key, when the accumulator has reached that key's
registered hold duration, invoke `holdListeners[keyPress]` and
`resetTimer`.  A key with no registered duration never fires (in the
source the comparison against `undefined` is false).  When
`holdListeners[keyPress]` is absent the source calls `undefined` and
throws, aborting the remainder of the tick: the `Bool` result records
that abort. -/
def holdCbLoop (keyPress : String) (ks : List String) (s : EngineState)
    (fired : List Nat) : EngineState × List Nat × Bool :=
  match ks with
  | [] => (s, fired, false)
  | k :: rest =>
    match mapLookup s.holdDurations k with
    | some d =>
      if d ≤ s.holdTimer then
        match mapLookup s.holdListeners keyPress with
        | some cb => holdCbLoop keyPress rest (resetTimer s) (fired ++ [cb])
        | none => (s, fired, true)
      else holdCbLoop keyPress rest s fired
    | none => holdCbLoop keyPress rest s fired

/-- One firing of the hold interval: run the captured callback, then (when
it did not throw) advance the accumulator by 100ms.  With no interval
scheduled nothing happens. -/
def holdTick (s : EngineState) : EngineState × List Nat :=
  match s.holdInterval with
  | none => (s, [])
  | some (nextKeysDown, keyPress) =>
    let r := holdCbLoop keyPress nextKeysDown s []
    if r.2.2 then (r.1, r.2.1)
    else ({ r.1 with holdTimer := r.1.holdTimer + 100 }, r.2.1)

/-- The firing of the sequence timeout: clear `previousKeys` and unset the
timer variable. -/
def seqTimeoutFire (s : EngineState) : EngineState :=
  { s with previousKeys := [], sequenceTimerSet := false }

/-- The per-key registration step of `registerShortcut`: hold mode writes
`holdDurations[key]` and `holdListeners[key]` (overwriting), combination
mode appends the callback to `listeners[key]` (creating it if absent). -/
def registerKeyStep (method : Nat) (hold : Bool) (duration : Nat)
    (st : EngineState) (key : String) : EngineState :=
  if hold then
    { st with
      holdDurations := mapInsert st.holdDurations key duration
      holdListeners := mapInsert st.holdListeners key method }
  else
    { st with
      listeners :=
        mapInsert st.listeners key
          ((mapLookup st.listeners key).getD [] ++ [method]) }

/-- The engine's `registerShortcut`: normalize the keys, append the new
shortcut record, and install a listener per normalized key. -/
def registerShortcut (method : Nat) (keys : List String)
    (title description : String) (holdDuration : Option Nat)
    (s : EngineState) : EngineState :=
  let hold := holdDuration.isSome
  let duration := holdDuration.getD 0
  let transformedKeys := transformKeysS keys
  let shortcut : Shortcut :=
    { id := "", description := description, hold := hold
      holdDuration := duration, keys := transformedKeys, method := method
      sequence := false, title := title }
  let s' := transformedKeys.foldl (registerKeyStep method hold duration) s
  { s' with shortcuts := s'.shortcuts ++ [shortcut] }

/-- The joined sequence key used by `registerSequenceShortcut`: the raw
keys joined with `,` and lowercased (no alias normalization). -/
def joinedSeqKey (keys : List String) : String :=
  strLower (String.intercalate "," keys)

/-- The engine's `registerSequenceShortcut`: when the joined key is
already registered the call leaves the state untouched; otherwise the
shortcut record is appended and the sequence listener installed. -/
def registerSequenceShortcut (method : Nat) (keys : List String)
    (title description : String) (s : EngineState) : EngineState :=
  let shortcut : Shortcut :=
    { id := "", description := description, hold := false
      holdDuration := 0, keys := keys, method := method
      sequence := true, title := title }
  let keyEvent := joinedSeqKey keys
  let already := (s.sequenceListeners.map Prod.fst).contains keyEvent
  if already then s
  else
    { s with
      shortcuts := s.shortcuts ++ [shortcut]
      sequenceListeners := mapInsert s.sequenceListeners keyEvent method }

/-- The per-key removal step of `unregisterShortcut` in non-sequence
mode: pop the tail of `listeners[key]` (deleting the entry when it
becomes empty) and unconditionally delete the hold entries for the
key. -/
def unregisterKeyStep (st : EngineState) (key : String) : EngineState :=
  let st1 :=
    match mapLookup st.listeners key with
    | some l =>
      let l' := l.dropLast
      if l'.length == 0 then { st with listeners := mapErase st.listeners key }
      else { st with listeners := mapInsert st.listeners key l' }
    | none => st
  { st1 with
    holdListeners := mapErase st1.holdListeners key
    holdDurations := mapErase st1.holdDurations key }

/-- The engine's `unregisterShortcut`: remove listeners per normalized
key (or the joined sequence key in sequence mode), then drop every
shortcut record whose full key set lies inside the passed keys. -/
def unregisterShortcut (keys : List String) (sequence : Bool)
    (s : EngineState) : EngineState :=
  let transformedKeys := transformKeysS keys
  let s1 :=
    if !sequence then transformedKeys.foldl unregisterKeyStep s
    else
      { s with
        sequenceListeners :=
          mapErase s.sequenceListeners (String.intercalate "," transformedKeys) }
  { s1 with
    shortcuts :=
      s1.shortcuts.filter
        (fun sc => !(sc.keys.all (fun k => transformedKeys.contains k))) }

/-- The engine's `setEnabled`: write the flag. -/
def setEnabled (enabled : Bool) (s : EngineState) : EngineState :=
  { s with isEnabled := enabled }

/-- Run a list of key-down events in order, collecting every callback
invocation. -/
def runKeyDowns (cfg : Config) : List KeyEvent → EngineState →
    EngineState × List Nat
  | [], s => (s, [])
  | e :: es, s =>
    let r := keyDown cfg e s
    let rest := runKeyDowns cfg es r.1
    (rest.1, r.2.comboFired ++ r.2.seqFired ++ rest.2)

/-- Iterate the hold interval a number of times, collecting hold-callback
invocations. -/
def iterateTicks : Nat → EngineState → EngineState × List Nat
  | 0, s => (s, [])
  | n + 1, s =>
    let r := holdTick s
    let rest := iterateTicks n r.1
    (rest.1, r.2 ++ rest.2)

/-! ### Association-list lemmas -/

theorem mapLookup_insert_self {α : Type} (m : List (String × α)) (k : String)
    (v : α) : mapLookup (mapInsert m k v) k = some v := by
  induction m with
  | nil => simp [mapInsert, mapLookup]
  | cons p rest ih =>
    obtain ⟨k', v'⟩ := p
    by_cases h : k' = k
    · simp [mapInsert, mapLookup, h]
    · simp [mapInsert, mapLookup, h, ih]

theorem mapLookup_insert_ne {α : Type} (m : List (String × α))
    (k k'' : String) (v : α) (h : k'' ≠ k) :
    mapLookup (mapInsert m k v) k'' = mapLookup m k'' := by
  induction m with
  | nil => simp [mapInsert, mapLookup, Ne.symm h]
  | cons p rest ih =>
    obtain ⟨k', v'⟩ := p
    by_cases hk : k' = k
    · subst hk
      simp [mapInsert, mapLookup, Ne.symm h]
    · simp [mapInsert, mapLookup, hk, ih]

theorem mapLookup_erase_self {α : Type} (m : List (String × α)) (k : String) :
    mapLookup (mapErase m k) k = none := by
  induction m with
  | nil => simp [mapErase, mapLookup]
  | cons p rest ih =>
    obtain ⟨k', v'⟩ := p
    by_cases h : k' = k
    · simpa [mapErase, List.filter_cons, h] using ih
    · simpa [mapErase, List.filter_cons, mapLookup, h] using ih

theorem mapLookup_erase_ne {α : Type} (m : List (String × α))
    (k k'' : String) (h : k'' ≠ k) :
    mapLookup (mapErase m k) k'' = mapLookup m k'' := by
  induction m with
  | nil => simp [mapErase, mapLookup]
  | cons p rest ih =>
    obtain ⟨k', v'⟩ := p
    by_cases hk : k' = k
    · subst hk
      simpa [mapErase, List.filter_cons, mapLookup, Ne.symm h] using ih
    · by_cases hk'' : k' = k''
      · simp [mapErase, List.filter_cons, mapLookup, hk, hk'', h]
      · simpa [mapErase, List.filter_cons, mapLookup, hk, hk''] using ih

theorem mapErase_of_lookup_none {α : Type} (m : List (String × α))
    (k : String) (h : mapLookup m k = none) : mapErase m k = m := by
  induction m with
  | nil => simp [mapErase]
  | cons p rest ih =>
    obtain ⟨k', v'⟩ := p
    by_cases hk : k' = k
    · simp [mapLookup, hk] at h
    · simp [mapLookup, hk] at h
      simp [mapErase, List.filter_cons, hk] at ih ⊢
      exact ih h

/-! ### C2: the key normalizer refines the spec's description -/

theorem transformKey_eq_specAlias (t : String) :
    transformKey t =
      (match mapLookup specAliases (strLower t) with
       | some canonical => canonical
       | none => strLower t) := by
  have hq : ∀ q : String,
      (if q == "opt" || q == "option" then "alt"
       else if q == "control" then "ctrl"
       else if q == "cmd" || q == "command" then "meta" else q)
      = (match mapLookup specAliases q with
         | some canonical => canonical
         | none => q) := by
    intro q
    by_cases h1 : q = "opt"
    · subst h1; decide
    by_cases h2 : q = "option"
    · subst h2; decide
    by_cases h3 : q = "control"
    · subst h3; decide
    by_cases h4 : q = "cmd"
    · subst h4; decide
    by_cases h5 : q = "command"
    · subst h5; decide
    simp [mapLookup, specAliases, h1, h2, h3, h4, h5,
      Ne.symm h1, Ne.symm h2, Ne.symm h3, Ne.symm h4, Ne.symm h5]
  simpa [transformKey] using hq (strLower t)

theorem transformOne_eq_normalizeSpec (rk : RawKey) :
    transformOne rk = normalizeSpec rk.toStr := by
  unfold transformOne normalizeSpec
  exact congrArg (String.intercalate "+")
    (List.map_congr_left (fun tok _ => transformKey_eq_specAlias tok))

/-- C2: `transformKeys` splits each input on `+`, coerces every token to a
lowercased string (numeric input accepted through the `RawKey.num`
constructor), substitutes the aliases per token, passes unknown tokens
through unchanged, and rejoins with `+` preserving relative order — it
agrees with `normalizeSpec`, the normalizer transcribed from the spec's
words, on every input; as a Lean function it is pure and total. -/
theorem transformKeys_refines_normalizeSpec :
    (∀ ks : List RawKey,
        transformKeys ks = ks.map (fun rk => normalizeSpec rk.toStr)) ∧
    (∀ n : Int, transformOne (RawKey.num n) = normalizeSpec (toString n)) := by
  constructor
  · intro ks
    exact List.map_congr_left (fun rk _ => transformOne_eq_normalizeSpec rk)
  · intro n
    exact transformOne_eq_normalizeSpec (RawKey.num n)

/-! ### Small helper lemmas -/

theorem intercalate_singleton (sep a : String) :
    String.intercalate sep [a] = a := rfl

@[simp]
theorem resetTimer_keysDown (st : EngineState) :
    (resetTimer st).keysDown = st.keysDown := by
  unfold resetTimer; split <;> rfl

@[simp]
theorem resetTimer_listeners (st : EngineState) :
    (resetTimer st).listeners = st.listeners := by
  unfold resetTimer; split <;> rfl

@[simp]
theorem resetTimer_previousKeys (st : EngineState) :
    (resetTimer st).previousKeys = st.previousKeys := by
  unfold resetTimer; split <;> rfl

@[simp]
theorem resetTimer_sequenceListeners (st : EngineState) :
    (resetTimer st).sequenceListeners = st.sequenceListeners := by
  unfold resetTimer; split <;> rfl

@[simp]
theorem resetTimer_sequenceTimerSet (st : EngineState) :
    (resetTimer st).sequenceTimerSet = st.sequenceTimerSet := by
  unfold resetTimer; split <;> rfl

@[simp]
theorem resetTimer_holdListeners (st : EngineState) :
    (resetTimer st).holdListeners = st.holdListeners := by
  unfold resetTimer; split <;> rfl

@[simp]
theorem resetTimer_holdDurations (st : EngineState) :
    (resetTimer st).holdDurations = st.holdDurations := by
  unfold resetTimer; split <;> rfl

@[simp]
theorem resetTimer_shortcuts (st : EngineState) :
    (resetTimer st).shortcuts = st.shortcuts := by
  unfold resetTimer; split <;> rfl

@[simp]
theorem resetTimer_isEnabled (st : EngineState) :
    (resetTimer st).isEnabled = st.isEnabled := by
  unfold resetTimer; split <;> rfl

/-! ### C4: hold dispatch fires exactly once -/

/-- C4 counterexample: after the tick that fires the hold callback (tick
11 of a 1000ms hold on `f`), the interval is cancelled — `holdInterval`
is `none`, the periodic tick does NOT keep running — and a continued hold
through 30 ticks (3000ms) never re-fires, where the claim's mechanism
(accumulator restarting from zero under a still-running tick) would have
fired a second time by 2100ms. -/
theorem hold_cex_tick_not_kept_running :
    (iterateTicks 11 (keyDown {} { key := some "f" }
        (registerShortcut 7 ["f"] "t" "d" (some 1000) initialState)).1).1.holdInterval
      = none ∧
    (iterateTicks 30 (keyDown {} { key := some "f" }
        (registerShortcut 7 ["f"] "t" "d" (some 1000) initialState)).1).2.count 7
      = 1 := by
  decide

/-- C4 (amended): with a hold binding of 1000ms on `f` and the key held
continuously with no key-up, the callback has fired exactly once when
elapsed time reaches 2000ms (20 ticks) — and not at all by 1000ms
(10 ticks, the threshold is crossed on the following tick); on firing the
interval is cancelled and the accumulator reset (then left at 100 by the
tick's trailing increment), so a continued hold to 3000ms never
re-fires. -/
theorem hold_fires_exactly_once :
    (iterateTicks 10 (keyDown {} { key := some "f" }
        (registerShortcut 7 ["f"] "t" "d" (some 1000) initialState)).1).2 = [] ∧
    (iterateTicks 20 (keyDown {} { key := some "f" }
        (registerShortcut 7 ["f"] "t" "d" (some 1000) initialState)).1).2.count 7
      = 1 ∧
    (iterateTicks 30 (keyDown {} { key := some "f" }
        (registerShortcut 7 ["f"] "t" "d" (some 1000) initialState)).1).2.count 7
      = 1 ∧
    (iterateTicks 30 (keyDown {} { key := some "f" }
        (registerShortcut 7 ["f"] "t" "d" (some 1000) initialState)).1).1.holdInterval
      = none ∧
    (iterateTicks 30 (keyDown {} { key := some "f" }
        (registerShortcut 7 ["f"] "t" "d" (some 1000) initialState)).1).1.holdTimer
      = 100 := by
  decide

/-! ### C7: duplicate sequence registration is a silent no-op -/

/-- C7: registering a sequence shortcut whose joined key is already
registered leaves the entire state — in particular the shortcuts list and
the sequence listener map — exactly as before, with no error (the model
is total); otherwise the binding is appended, the callback is installed
under the joined key, and every other key's listener is unchanged, so the
first registration wins. -/
theorem registerSequenceShortcut_duplicate_noop (m : Nat) (ks : List String)
    (t d : String) (s : EngineState) :
    ((s.sequenceListeners.map Prod.fst).contains (joinedSeqKey ks) = true →
      registerSequenceShortcut m ks t d s = s) ∧
    ((s.sequenceListeners.map Prod.fst).contains (joinedSeqKey ks) = false →
      (registerSequenceShortcut m ks t d s).shortcuts
          = s.shortcuts ++
            [{ id := "", description := d, hold := false, holdDuration := 0,
               keys := ks, method := m, sequence := true, title := t }] ∧
      mapLookup (registerSequenceShortcut m ks t d s).sequenceListeners
          (joinedSeqKey ks) = some m ∧
      ∀ k', k' ≠ joinedSeqKey ks →
        mapLookup (registerSequenceShortcut m ks t d s).sequenceListeners k'
          = mapLookup s.sequenceListeners k') := by
  constructor
  · intro h
    unfold registerSequenceShortcut
    dsimp only
    rw [if_pos h]
  · intro h
    have hno :
        ¬ ((s.sequenceListeners.map Prod.fst).contains (joinedSeqKey ks)
            = true) := by
      intro hc
      rw [hc] at h
      cases h
    unfold registerSequenceShortcut
    dsimp only
    rw [if_neg hno]
    refine ⟨rfl, mapLookup_insert_self _ _ _, ?_⟩
    intro k' hk'
    exact mapLookup_insert_ne _ _ _ _ hk'

/-- C7 witness: registering `["A"]` over an existing `a` sequence is a
no-op, while registering `["b"]` on a fresh engine installs the
listener. -/
theorem registerSequenceShortcut_duplicate_noop_witness :
    registerSequenceShortcut 9 ["A"] "t2" "d2"
        { initialState with sequenceListeners := [("a", 5)] }
      = { initialState with sequenceListeners := [("a", 5)] } ∧
    mapLookup (registerSequenceShortcut 9 ["b"] "t" "d"
        initialState).sequenceListeners (joinedSeqKey ["b"]) = some 9 := by
  constructor
  · exact (registerSequenceShortcut_duplicate_noop 9 ["A"] "t2" "d2"
      { initialState with sequenceListeners := [("a", 5)] }).1 (by decide)
  · exact ((registerSequenceShortcut_duplicate_noop 9 ["b"] "t" "d"
      initialState).2 (by decide)).2.1

/-! ### C5: effects of key-up -/

/-- C5 counterexample: after a hold shortcut on `f` (duration 1000ms) has
fired — 11 ticks of the interval — the interval is cleared and the
accumulator was left at 100 by the tick's trailing increment; the
subsequent key-up then leaves `holdTimer` at 100, not zero, because
`resetTimer` only zeroes the accumulator when an interval is active. -/
theorem keyUp_cex_holdTimer_not_zeroed :
    (iterateTicks 11 (keyDown {} { key := some "f" }
        (registerShortcut 7 ["f"] "t" "d" (some 1000) initialState)).1).2 = [7] ∧
    (keyUp { key := some "f" }
      (iterateTicks 11 (keyDown {} { key := some "f" }
        (registerShortcut 7 ["f"] "t" "d" (some 1000) initialState)).1).1).holdTimer
      = 100 := by
  decide

/-- C5 (amended): on every key-up the event-implied tokens (modifier
tokens per the flag/name detection rule plus the lowercased key when not
a modifier name) are removed from `keysDown`; the hold tick is stopped,
and the accumulator is reset to zero exactly when a tick was active
(otherwise it is left as-is); `previousKeys`, the sequence timer and all
registries are unchanged. -/
theorem keyUp_effects (e : KeyEvent) (s : EngineState) :
    (keyUp e s).keysDown
        = s.keysDown.filter (fun k => !(keysUpOf e).contains k) ∧
    (keyUp e s).holdInterval = none ∧
    (keyUp e s).holdTimer = (if s.holdInterval.isSome then 0 else s.holdTimer) ∧
    (keyUp e s).previousKeys = s.previousKeys ∧
    (keyUp e s).sequenceTimerSet = s.sequenceTimerSet ∧
    (keyUp e s).listeners = s.listeners ∧
    (keyUp e s).holdListeners = s.holdListeners ∧
    (keyUp e s).holdDurations = s.holdDurations ∧
    (keyUp e s).sequenceListeners = s.sequenceListeners ∧
    (keyUp e s).shortcuts = s.shortcuts := by
  cases h : s.holdInterval <;> simp [keyUp, resetTimer, h]

/-! ### C10: key-up and blur are processed while disabled -/

/-- C10: key-up and focus-lost run even while `isEnabled = false`: key-up
still filters the event-implied tokens out of `keysDown` and stops the
hold tick, and blur still clears `keysDown` entirely, so disabling
dispatch mid-press cannot leave stale entries in `keysDown`. -/
theorem keyUp_blur_processed_while_disabled (e : KeyEvent) (s : EngineState) :
    (keyUp e { s with isEnabled := false }).keysDown
        = s.keysDown.filter (fun k => !(keysUpOf e).contains k) ∧
    (keyUp e { s with isEnabled := false }).holdInterval = none ∧
    (windowBlur { s with isEnabled := false }).keysDown = [] ∧
    (windowBlur { s with isEnabled := false }).holdInterval = none := by
  cases h : s.holdInterval <;> simp [keyUp, windowBlur, resetTimer, h]

/-! ### C3: auto-repeat suppression is a complete no-op -/

/-- C3 counterexample: with `x` already held, a key-down for `x` carrying
`ctrlKey = true` leaves the state untouched — in particular `ctrl` is NOT
appended to `keysDown`, contrary to the claim's exception clause. -/
theorem keyDown_cex_modifier_not_appended_when_held :
    (keyDown {} { key := some "x", ctrlKey := true }
        { initialState with keysDown := ["x"] }).1.keysDown = ["x"] ∧
    ¬ "ctrl" ∈ (keyDown {} { key := some "x", ctrlKey := true }
        { initialState with keysDown := ["x"] }).1.keysDown ∧
    (keyDown {} { key := some "x", ctrlKey := true }
        { initialState with keysDown := ["x"] }).2 = noOut := by
  decide

/-- C3 (amended): whenever the lowercased event key is already present in
`keysDown`, the key-down is a complete no-op — the state (including
`keysDown` and `previousKeys`) is unchanged and no callback is invoked;
modifier flags newly implied by the event are not appended in this
case. -/
theorem keyDown_noop_when_key_already_held (cfg : Config) (e : KeyEvent)
    (s : EngineState) (rk : String) (hkey : e.key = some rk)
    (hheld : strLower rk ∈ s.keysDown) :
    keyDown cfg e s = (s, noOut) := by
  by_cases hE : s.isEnabled
  · by_cases hk0 : strLower rk = ""
    · simp [keyDown, hkey, hE, hk0]
    · simp [keyDown, hkey, hE, hk0, hheld]
  · simp [keyDown, hkey, hE]

/-- C3 witness: a repeated key-down of held `x` (spelled `X`) is a no-op. -/
theorem keyDown_noop_when_key_already_held_witness :
    keyDown {} { key := some "X" } { initialState with keysDown := ["x"] }
      = ({ initialState with keysDown := ["x"] }, noOut) :=
  keyDown_noop_when_key_already_held {} _ _ "X" rfl (by decide)

/-! ### C9: the enabled flag gates key-down dispatch only -/

theorem registerKeyStep_isEnabled_comm (m : Nat) (h : Bool) (d : Nat)
    (st : EngineState) (k : String) (b : Bool) :
    registerKeyStep m h d { st with isEnabled := b } k
      = { registerKeyStep m h d st k with isEnabled := b } := by
  unfold registerKeyStep
  split <;> rfl

theorem foldl_registerKeyStep_isEnabled_comm (m : Nat) (h : Bool) (d : Nat)
    (l : List String) (st : EngineState) (b : Bool) :
    l.foldl (registerKeyStep m h d) { st with isEnabled := b }
      = { l.foldl (registerKeyStep m h d) st with isEnabled := b } := by
  induction l generalizing st with
  | nil => rfl
  | cons k rest ih =>
    simp [List.foldl_cons, registerKeyStep_isEnabled_comm, ih]

theorem unregisterKeyStep_isEnabled_comm (st : EngineState) (k : String)
    (b : Bool) :
    unregisterKeyStep { st with isEnabled := b } k
      = { unregisterKeyStep st k with isEnabled := b } := by
  unfold unregisterKeyStep
  rcases hL : mapLookup st.listeners k with _ | l
  · simp only [hL]
  · simp only [hL]
    split <;> rfl

theorem foldl_unregisterKeyStep_isEnabled_comm (l : List String)
    (st : EngineState) (b : Bool) :
    l.foldl unregisterKeyStep { st with isEnabled := b }
      = { l.foldl unregisterKeyStep st with isEnabled := b } := by
  induction l generalizing st with
  | nil => rfl
  | cons k rest ih =>
    simp [List.foldl_cons, unregisterKeyStep_isEnabled_comm, ih]

theorem registerSequenceShortcut_isEnabled_comm (m : Nat) (ks : List String)
    (t d : String) (s' : EngineState) (b : Bool) :
    registerSequenceShortcut m ks t d { s' with isEnabled := b }
      = { registerSequenceShortcut m ks t d s' with isEnabled := b } := by
  unfold registerSequenceShortcut
  dsimp only
  by_cases hA :
      (s'.sequenceListeners.map Prod.fst).contains (joinedSeqKey ks) = true
  · rw [if_pos hA, if_pos hA]
  · rw [if_neg hA, if_neg hA]

theorem unregisterShortcut_isEnabled_comm (ks : List String) (sq : Bool)
    (s' : EngineState) (b : Bool) :
    unregisterShortcut ks sq { s' with isEnabled := b }
      = { unregisterShortcut ks sq s' with isEnabled := b } := by
  rcases sq with _ | _
  · simp [unregisterShortcut, foldl_unregisterKeyStep_isEnabled_comm]
  · simp [unregisterShortcut]

/-- C9: while `isEnabled = false`, any sequence of key-down events leaves
the state exactly as it was and invokes no callback; `setEnabled` writes
only the flag; and the three registration operations commute with the
flag — they read and write the registries identically whatever the flag's
value, so registration state is unaffected by the toggle. -/
theorem setEnabled_gates_keyDown_only (cfg : Config) (s : EngineState)
    (hdis : s.isEnabled = false) :
    (∀ es : List KeyEvent, runKeyDowns cfg es s = (s, [])) ∧
    (∀ b, setEnabled b s = { s with isEnabled := b }) ∧
    (∀ (s' : EngineState) (m : Nat) (ks : List String) (t d : String)
        (hd : Option Nat) (b : Bool),
        registerShortcut m ks t d hd { s' with isEnabled := b }
          = { registerShortcut m ks t d hd s' with isEnabled := b }) ∧
    (∀ (s' : EngineState) (m : Nat) (ks : List String) (t d : String)
        (b : Bool),
        registerSequenceShortcut m ks t d { s' with isEnabled := b }
          = { registerSequenceShortcut m ks t d s' with isEnabled := b }) ∧
    (∀ (s' : EngineState) (ks : List String) (sq b : Bool),
        unregisterShortcut ks sq { s' with isEnabled := b }
          = { unregisterShortcut ks sq s' with isEnabled := b }) := by
  have hkd : ∀ e, keyDown cfg e s = (s, noOut) := by
    intro e
    simp [keyDown, hdis]
  refine ⟨?_, fun b => rfl, ?_, ?_, ?_⟩
  · intro es
    induction es with
    | nil => rfl
    | cons e rest ih => simp [runKeyDowns, hkd, ih, noOut]
  · intro s' m ks t d hd b
    simp only [registerShortcut, foldl_registerKeyStep_isEnabled_comm]
  · intro s' m ks t d b
    exact registerSequenceShortcut_isEnabled_comm m ks t d s' b
  · intro s' ks sq b
    exact unregisterShortcut_isEnabled_comm ks sq s' b

/-- C9 witness: a disabled engine ignores a key-down for `q`. -/
theorem setEnabled_gates_keyDown_only_witness :
    runKeyDowns {} [{ key := some "q" }]
        { initialState with isEnabled := false }
      = ({ initialState with isEnabled := false }, []) :=
  (setEnabled_gates_keyDown_only {} { initialState with isEnabled := false }
    rfl).1 [{ key := some "q" }]

/-! ### C8: unregister pops the tail and clears hold entries -/

/-- C8: unregistering a single key in non-sequence mode pops the
most-recently-added entry from the key's combination list (the tail),
deletes the map entry when the list becomes empty, unconditionally
deletes the key's hold listener and hold duration, leaves every other
key's combination listeners untouched, and is a no-op on the listener
maps when the key has no listener. -/
theorem unregisterShortcut_single_key (k0 : String) (s : EngineState) :
    (∀ (l : List Nat) (c : Nat),
        mapLookup s.listeners (transformOne (RawKey.str k0)) = some (l ++ [c]) →
        mapLookup (unregisterShortcut [k0] false s).listeners
            (transformOne (RawKey.str k0))
          = (if l = [] then none else some l)) ∧
    mapLookup (unregisterShortcut [k0] false s).holdListeners
        (transformOne (RawKey.str k0)) = none ∧
    mapLookup (unregisterShortcut [k0] false s).holdDurations
        (transformOne (RawKey.str k0)) = none ∧
    (mapLookup s.listeners (transformOne (RawKey.str k0)) = none →
        (unregisterShortcut [k0] false s).listeners = s.listeners) ∧
    (mapLookup s.listeners (transformOne (RawKey.str k0)) = none →
     mapLookup s.holdListeners (transformOne (RawKey.str k0)) = none →
     mapLookup s.holdDurations (transformOne (RawKey.str k0)) = none →
        (unregisterShortcut [k0] false s).holdListeners = s.holdListeners ∧
        (unregisterShortcut [k0] false s).holdDurations = s.holdDurations) ∧
    (∀ k', k' ≠ transformOne (RawKey.str k0) →
        mapLookup (unregisterShortcut [k0] false s).listeners k'
          = mapLookup s.listeners k') := by
  have hst : unregisterShortcut [k0] false s
      = { unregisterKeyStep s (transformOne (RawKey.str k0)) with
          shortcuts :=
            (unregisterKeyStep s (transformOne (RawKey.str k0))).shortcuts.filter
              (fun sc => !(sc.keys.all
                (fun k => [transformOne (RawKey.str k0)].contains k))) } := rfl
  rw [hst]
  refine ⟨?_, ?_, ?_, ?_, ?_, ?_⟩
  · intro l c hl
    unfold unregisterKeyStep
    rw [hl]
    dsimp only
    rw [List.dropLast_concat]
    by_cases hnil : l = []
    · subst hnil
      simp [mapLookup_erase_self]
    · have hlen : ¬ (l.length == 0) = true := by
        simp [hnil]
      rw [if_neg hlen, if_neg hnil]
      dsimp only
      exact mapLookup_insert_self _ _ _
  · rcases hL : mapLookup s.listeners (transformOne (RawKey.str k0))
        with _ | l <;>
      simp [unregisterKeyStep, hL, mapLookup_erase_self]
  · rcases hL : mapLookup s.listeners (transformOne (RawKey.str k0))
        with _ | l <;>
      simp [unregisterKeyStep, hL, mapLookup_erase_self]
  · intro h
    simp [unregisterKeyStep, h]
  · intro h hHL hHD
    simp [unregisterKeyStep, h, mapErase_of_lookup_none _ _ hHL,
      mapErase_of_lookup_none _ _ hHD]
  · intro k' hk'
    unfold unregisterKeyStep
    rcases hL : mapLookup s.listeners (transformOne (RawKey.str k0))
        with _ | l
    · rfl
    · dsimp only
      split
      · exact mapLookup_erase_ne _ _ _ hk'
      · exact mapLookup_insert_ne _ _ _ _ hk'

/-- C8 witness: with two callbacks registered under `x` plus hold
entries, unregistering `x` pops the tail leaving the first callback and
clears the hold entries; unregistering a key with no listener leaves the
listener maps unchanged. -/
theorem unregisterShortcut_single_key_witness :
    mapLookup (unregisterShortcut ["x"] false
        { initialState with
            listeners := [("x", [1, 2])]
            holdListeners := [("x", 3)]
            holdDurations := [("x", 500)] }).listeners
        (transformOne (RawKey.str "x")) = some [1] ∧
    mapLookup (unregisterShortcut ["x"] false
        { initialState with
            listeners := [("x", [1, 2])]
            holdListeners := [("x", 3)]
            holdDurations := [("x", 500)] }).holdListeners
        (transformOne (RawKey.str "x")) = none ∧
    (unregisterShortcut ["y"] false
        { initialState with listeners := [("x", [1, 2])] }).listeners
      = [("x", [1, 2])] := by
  refine ⟨?_, ?_, ?_⟩
  · have h := (unregisterShortcut_single_key "x"
      { initialState with
          listeners := [("x", [1, 2])]
          holdListeners := [("x", 3)]
          holdDurations := [("x", 500)] }).1 [1] 2 (by decide)
    simpa using h
  · exact (unregisterShortcut_single_key "x"
      { initialState with
          listeners := [("x", [1, 2])]
          holdListeners := [("x", 3)]
          holdDurations := [("x", 500)] }).2.1
  · exact (unregisterShortcut_single_key "y"
      { initialState with listeners := [("x", [1, 2])] }).2.2.2.1 (by decide)

/-! ### C6: sequence matching, clearing and timeout restart -/

/-- C6 counterexample: on a fresh engine (no sequence timer ever set),
registering the one-key sequence `a` and delivering key-down(`a`) invokes
the sequence callback but does NOT clear `previousKeys` — the clearing is
guarded by the truthiness of the `sequenceTimer` variable, which is still
undefined on the very first key-down. -/
theorem keyDown_cex_sequence_not_cleared_on_first_match :
    (keyDown {} { key := some "a" }
        (registerSequenceShortcut 5 ["a"] "t" "d" initialState)).2.seqFired
      = [5] ∧
    (keyDown {} { key := some "a" }
        (registerSequenceShortcut 5 ["a"] "t" "d" initialState)).1.previousKeys
      = ["a"] := by
  decide

/-- C6 (amended): on every processed key-down the pending-sequence log is
extended by the newly added tokens and looked up joined with `,`; on a
match the callback is invoked, and `previousKeys` is cleared exactly when
the sequence-timer variable was already set by a previous key-down
(otherwise the matched log is kept); whether or not a match occurred a
fresh single-shot timeout of `sequenceTimeout` (default 2000ms) is
started, and that timeout clears `previousKeys` when it fires. -/
theorem keyDown_sequence_behaviour (cfg : Config) (e : KeyEvent)
    (s : EngineState) (rk : String) (hE : s.isEnabled = true)
    (hkey : e.key = some rk) (hk0 : ¬ strLower rk = "")
    (htag : (ignoreList cfg).contains (strLower e.targetTagName) = false)
    (hheld : s.keysDown.contains (strLower rk) = false) :
    (keyDown cfg e s).2.seqFired
        = (mapLookup s.sequenceListeners
            (String.intercalate ","
              (s.previousKeys
                ++ (computeNextKeys cfg e (strLower rk) s.keysDown).1))).toList ∧
    (keyDown cfg e s).1.sequenceTimerSet = true ∧
    (keyDown cfg e s).2.seqTimeoutMs = some (cfg.sequenceTimeout.getD 2000) ∧
    (keyDown cfg e s).1.previousKeys
        = (if (mapLookup s.sequenceListeners
              (String.intercalate ","
                (s.previousKeys
                  ++ (computeNextKeys cfg e (strLower rk) s.keysDown).1))).isSome
              ∧ s.sequenceTimerSet = true
           then []
           else s.previousKeys
             ++ (computeNextKeys cfg e (strLower rk) s.keysDown).1) ∧
    (seqTimeoutFire (keyDown cfg e s).1).previousKeys = [] := by
  have htag' :
      ¬ ((ignoreList cfg).contains (strLower e.targetTagName) = true) := by
    rw [htag]; exact Bool.false_ne_true
  have hheld' : ¬ (s.keysDown.contains (strLower rk) = true) := by
    rw [hheld]; exact Bool.false_ne_true
  have hred : keyDown cfg e s = keyDownCore cfg e (strLower rk) s := by
    rw [keyDown, hkey]
    simp only [hE, Bool.not_true, Bool.false_eq_true, if_false]
    rw [if_neg (by simpa using hk0), if_neg htag', if_neg hheld']
  rw [hred]
  unfold keyDownCore
  dsimp only
  simp only [resetTimer_previousKeys, resetTimer_sequenceListeners,
    resetTimer_sequenceTimerSet]
  rcases hseq : mapLookup s.sequenceListeners
      (String.intercalate ","
        (s.previousKeys ++ (computeNextKeys cfg e (strLower rk) s.keysDown).1))
      with _ | cb
  · simp [hseq, seqTimeoutFire]
  · rcases hts : s.sequenceTimerSet with _ | _ <;>
      simp [hseq, hts, seqTimeoutFire]

/-- C6 witness: with the sequence timer already set and a one-key
sequence on `b` registered, key-down(`b`) fires the callback, clears
the pending log and re-arms the timer with the default 2000ms. -/
theorem keyDown_sequence_behaviour_witness :
    (keyDown {} { key := some "b" }
        { initialState with
            sequenceListeners := [("b", 5)]
            sequenceTimerSet := true }).2.seqFired = [5] ∧
    (keyDown {} { key := some "b" }
        { initialState with
            sequenceListeners := [("b", 5)]
            sequenceTimerSet := true }).1.previousKeys = [] ∧
    (keyDown {} { key := some "b" }
        { initialState with
            sequenceListeners := [("b", 5)]
            sequenceTimerSet := true }).2.seqTimeoutMs = some 2000 := by
  have h := keyDown_sequence_behaviour {} { key := some "b" }
    { initialState with
        sequenceListeners := [("b", 5)]
        sequenceTimerSet := true }
    "b" rfl rfl (by decide) (by decide) (by decide)
  refine ⟨?_, ?_, ?_⟩
  · rw [h.1]; decide
  · rw [h.2.2.2.1]; decide
  · rw [h.2.2.1]
    rfl

/-! ### C1: single-key combination dispatch -/

/-- C1: for a single, unmodified, already-canonical key `k` (lowercase,
no `+`, not a modifier name or token, not an ignored key), registering a
combination binding on `k` on a fresh enabled engine and delivering
key-down(`k`) with no modifier flags at a non-ignored target invokes the
callback exactly once (and no sequence callback); delivering key-down for
any key whose lowercased form differs from `k` invokes nothing. -/
theorem single_key_combo_dispatch (cfg : Config) (cb : Nat)
    (k tag t d : String)
    (hik : cfg.ignoreKeys = [])
    (hlow : strLower k = k)
    (htk : transformKey k = k)
    (hsplit : splitOnChar '+' k = [k])
    (hne : k ≠ "")
    (hnm : k ∉ ["control", "alt", "meta", "shift", "ctrl"])
    (htag : (ignoreList cfg).contains (strLower tag) = false) :
    ((keyDown cfg { key := some k, targetTagName := tag }
        (registerShortcut cb [k] t d none initialState)).2.comboFired = [cb] ∧
     (keyDown cfg { key := some k, targetTagName := tag }
        (registerShortcut cb [k] t d none initialState)).2.seqFired = []) ∧
    (∀ k' : String, strLower k' ≠ k →
      (keyDown cfg { key := some k', targetTagName := tag }
          (registerShortcut cb [k] t d none initialState)).2.comboFired = [] ∧
      (keyDown cfg { key := some k', targetTagName := tag }
          (registerShortcut cb [k] t d none initialState)).2.seqFired = []) := by
  have hnm' : ¬ (k = "control" ∨ k = "alt" ∨ k = "meta" ∨ k = "shift"
      ∨ k = "ctrl") := by
    simpa using hnm
  obtain ⟨h1, h2, h3, h4, h5⟩ :
      k ≠ "control" ∧ k ≠ "alt" ∧ k ≠ "meta" ∧ k ≠ "shift" ∧ k ≠ "ctrl" := by
    push_neg at hnm'
    exact hnm'
  have ht : transformOne (RawKey.str k) = k := by
    show String.intercalate "+" ((splitOnChar '+' k).map transformKey) = k
    rw [hsplit, List.map_cons, List.map_nil, htk]
    exact intercalate_singleton "+" k
  have hkeys : transformKeysS [k] = [k] := by
    show List.map transformOne (List.map RawKey.str [k]) = [k]
    rw [List.map_cons, List.map_nil, List.map_cons, List.map_nil, ht]
  have hs1 : registerShortcut cb [k] t d none initialState
      = { holdDurations := [], holdInterval := none, holdListeners := [],
          holdTimer := 0, keysDown := [], listeners := [(k, [cb])],
          previousKeys := [], sequenceListeners := [],
          sequenceTimerSet := false,
          shortcuts := [{ id := "",
                          description := d,
                          hold := false,
                          holdDuration := 0,
                          keys := [k],
                          method := cb,
                          sequence := false,
                          title := t }],
          isEnabled := true } := by
    unfold registerShortcut
    dsimp only
    rw [hkeys]
    rfl
  have hg2 : ¬ ((ignoreList cfg).contains (strLower tag) = true) := by
    rw [htag]; exact Bool.false_ne_true
  have key_lemma : ∀ (st : EngineState) (r : String), st.isEnabled = true →
      st.keysDown = [] → ¬ (strLower r = "") →
      keyDown cfg { key := some r, targetTagName := tag } st
        = keyDownCore cfg { key := some r, targetTagName := tag }
            (strLower r) st := by
    intro st r hen hkd hr
    rw [keyDown]
    dsimp only
    simp only [hen, Bool.not_true, Bool.false_eq_true, if_false]
    rw [if_neg (by simpa using hr), if_neg hg2, hkd,
      if_neg (by simp)]
  have hcore : ∀ (st : EngineState) (r : String), st.keysDown = [] →
      st.previousKeys = [] → st.sequenceListeners = [] →
      st.listeners = [(k, [cb])] →
      (keyDownCore cfg { key := some r, targetTagName := tag }
          (strLower r) st).2.comboFired
        = (mapLookup [(k, [cb])]
            (String.intercalate "+"
              (computeNextKeys cfg { key := some r, targetTagName := tag }
                (strLower r) []).1)).getD [] ∧
      (keyDownCore cfg { key := some r, targetTagName := tag }
          (strLower r) st).2.seqFired
        = (mapLookup ([] : List (String × Nat))
            (String.intercalate ","
              (computeNextKeys cfg { key := some r, targetTagName := tag }
                (strLower r) []).1)).toList := by
    intro st r ha hb hc hd
    unfold keyDownCore
    dsimp only
    simp only [ha, hb, hc, hd, resetTimer_sequenceListeners,
      resetTimer_previousKeys, resetTimer_sequenceTimerSet, List.nil_append]
    rcases hseq : mapLookup ([] : List (String × Nat))
        (String.intercalate ","
          (computeNextKeys cfg { key := some r, targetTagName := tag }
            (strLower r) []).1) with _ | cb2
    · simp [hseq]
    · simp [mapLookup] at hseq
  have hcnk : computeNextKeys cfg { key := some k, targetTagName := tag }
      k [] = ([k], []) := by
    simp [computeNextKeys, hik, h1, h2, h3, h4]
  rw [hs1]
  constructor
  · rw [key_lemma _ k rfl rfl (by rw [hlow]; exact hne)]
    refine ⟨?_, ?_⟩
    · rw [(hcore _ k rfl rfl rfl rfl).1, hlow, hcnk]
      simp [mapLookup, intercalate_singleton]
    · rw [(hcore _ k rfl rfl rfl rfl).2]
      simp [mapLookup]
  · intro k' hk'
    by_cases hq0 : strLower k' = ""
    · constructor <;> simp [keyDown, hq0, noOut]
    · rw [key_lemma _ k' rfl rfl hq0]
      refine ⟨?_, ?_⟩
      · rw [(hcore _ k' rfl rfl rfl rfl).1]
        by_cases hcq : strLower k' = "control"
        · rw [hcq]
          simp +decide [computeNextKeys, hik, mapLookup,
            intercalate_singleton, h5]
        by_cases haq : strLower k' = "alt"
        · rw [haq]
          simp +decide [computeNextKeys, hik, mapLookup,
            intercalate_singleton, h2]
        by_cases hmq : strLower k' = "meta"
        · rw [hmq]
          simp +decide [computeNextKeys, hik, mapLookup,
            intercalate_singleton, h3]
        by_cases hsq : strLower k' = "shift"
        · rw [hsq]
          simp +decide [computeNextKeys, hik, mapLookup,
            intercalate_singleton, h4]
        · simp [computeNextKeys, hik, mapLookup, intercalate_singleton,
            hcq, haq, hmq, hsq, Ne.symm hk']
      · rw [(hcore _ k' rfl rfl rfl rfl).2]
        simp [mapLookup]

/-- C1 witness: registering `x` and pressing `x` fires the callback once;
pressing `y` fires nothing. -/
theorem single_key_combo_dispatch_witness :
    (keyDown {} { key := some "x", targetTagName := "DIV" }
        (registerShortcut 7 ["x"] "Title" "Desc" none initialState)).2.comboFired
      = [7] ∧
    (keyDown {} { key := some "y", targetTagName := "DIV" }
        (registerShortcut 7 ["x"] "Title" "Desc" none initialState)).2.comboFired
      = [] := by
  have h := single_key_combo_dispatch {} 7 "x" "DIV" "Title" "Desc" rfl
    (by decide) (by decide) (by decide) (by decide) (by decide) (by decide)
  exact ⟨h.1.1, (h.2 "y" (by decide)).1⟩

end ReactKeybind
